import Mathlib

/-!
# Command Safety Classifier — formal model

A shallow embedding of the repository's command safety classifier
(`checkCommandSafety` in `safe-bash.ts`).  The implementation file itself is
absent from the snapshot (only its test suite `src/safe-bash.test.ts` is
present), so every definition below is modelled from the specification,
§3 (data model), §4.1 (segmentation), §4.2 (rule matching) and
§4.3 (verdict aggregation).
-/

/-- The single-quote character, written via its code point. -/
def squote : Char := '\x27'

/-- Whitespace recognised by the tokenizer (space, tab, carriage return). -/
def isWsC (c : Char) : Bool := c == ' ' || c == '\t' || c == '\r'

/-- Modelled from the spec: quote state of the tokenizer state machine
(§9: states *unquoted*, *in-single-quote*, *in-double-quote*). -/
inductive QState where
  | normal
  | single
  | double
deriving DecidableEq

/-- Modelled from the spec: a token of a segmented line — an ordinary word
(quote delimiters stripped, quoted content kept verbatim), an unquoted
compound/pipe separator (`;`, `&&`, `||`, `|`), or an unquoted output
redirection operator (`>`, `>>`). -/
inductive Tok where
  | word : String → Tok
  | op : String → Tok
  | redir : String → Tok
deriving DecidableEq

/-- Flush the current token accumulator (characters held in reverse). -/
def emit (acc : List Char) (started : Bool) : List Tok :=
  if started then [Tok.word ⟨acc.reverse⟩] else []

/-- Modelled from the spec: the quote-aware tokenizer (§4.1, §9).
Characters inside quotes are never separators or redirection operators;
an unterminated quote swallows the remainder of the line (§7). -/
def tokenizeAux : QState → List Char → List Char → Bool → List Tok
  | .normal, [], acc, started => emit acc started
  | .normal, '&' :: '&' :: rest, acc, started =>
    emit acc started ++ Tok.op "&&" :: tokenizeAux .normal rest [] false
  | .normal, '|' :: '|' :: rest, acc, started =>
    emit acc started ++ Tok.op "||" :: tokenizeAux .normal rest [] false
  | .normal, '>' :: '>' :: rest, acc, started =>
    emit acc started ++ Tok.redir ">>" :: tokenizeAux .normal rest [] false
  | .normal, c :: rest, acc, started =>
    if c = squote then tokenizeAux .single rest acc true
    else if c = '"' then tokenizeAux .double rest acc true
    else if isWsC c then emit acc started ++ tokenizeAux .normal rest [] false
    else if c = ';' then emit acc started ++ Tok.op ";" :: tokenizeAux .normal rest [] false
    else if c = '|' then emit acc started ++ Tok.op "|" :: tokenizeAux .normal rest [] false
    else if c = '>' then emit acc started ++ Tok.redir ">" :: tokenizeAux .normal rest [] false
    else tokenizeAux .normal rest (c :: acc) true
  | .single, [], acc, _ => [Tok.word ⟨acc.reverse⟩]
  | .single, c :: rest, acc, _ =>
    if c = squote then tokenizeAux .normal rest acc true
    else tokenizeAux .single rest (c :: acc) true
  | .double, [], acc, _ => [Tok.word ⟨acc.reverse⟩]
  | .double, c :: rest, acc, _ =>
    if c = '"' then tokenizeAux .normal rest acc true
    else tokenizeAux .double rest (c :: acc) true

/-- Split raw input on line breaks (§4.1: lines are processed independently). -/
def splitLines : List Char → List (List Char)
  | [] => [[]]
  | c :: cs =>
    if c = '\n' then [] :: splitLines cs
    else
      match splitLines cs with
      | [] => [[c]]
      | l :: ls => (c :: l) :: ls

/-- Is the token an unquoted separator? -/
def isOpTok : Tok → Bool
  | .op _ => true
  | _ => false

/-- Is the token an unquoted output redirection operator? -/
def isRedirTok : Tok → Bool
  | .redir _ => true
  | _ => false

/-- Split a token stream on unquoted separators, producing runs (§4.1). -/
def splitRuns : List Tok → List (List Tok)
  | [] => [[]]
  | t :: ts =>
    if isOpTok t then [] :: splitRuns ts
    else
      match splitRuns ts with
      | [] => [[t]]
      | r :: rs => (t :: r) :: rs

/-- Modelled from the spec: a Segment — an ordered token run together with
the flag "contains an unquoted output-redirection operator" (§3). -/
structure Segment where
  tokens : List Tok
  redir : Bool
deriving DecidableEq

/-- Modelled from the spec: segmentation of one line (§4.1): a line that is
empty or starts with `#` after trimming contributes no segments; otherwise
the quote-aware token stream is split on unquoted separators, and each
non-empty run becomes a Segment carrying its redirection flag. -/
def lineSegments (l : List Char) : List Segment :=
  match l.dropWhile isWsC with
  | [] => []
  | c :: rest =>
    if c = '#' then []
    else
      ((splitRuns (tokenizeAux .normal (c :: rest) [] false)).filter
        (fun r => !r.isEmpty)).map
        (fun r => { tokens := r, redir := r.any isRedirTok })

/-- Modelled from the spec: segmentation of the whole input (§4.1):
split on line breaks first, then segment each line. -/
def segments (raw : String) : List Segment :=
  (splitLines raw.data).flatMap lineSegments

/-- The word tokens of a token run, in order. -/
def wordTokens (ts : List Tok) : List String :=
  ts.filterMap fun t =>
    match t with
    | .word s => some s
    | _ => none

/-- The command name of a segment: its first word token. -/
def cmdHead (s : Segment) : Option String :=
  (wordTokens s.tokens).head?

/-- Modelled from the spec: the always-destructive command names (§4.2 rule 2). -/
def alwaysDestructive : List String :=
  ["rm", "rmdir", "unlink", "shred", "mv", "cp", "touch", "mkdir", "chmod",
   "chown", "ln", "truncate", "dd", "patch"]

/-- Modelled from the spec: the git write-set subcommands (§4.2 rule 4). -/
def gitWrite : List String :=
  ["commit", "push", "merge", "rebase", "reset", "stash", "cherry-pick",
   "revert", "clean", "rm", "mv"]

/-- Modelled from the spec: the package manager command names (§4.2 rule 5). -/
def pmNames : List String := ["npm", "yarn", "pnpm", "pip", "cargo"]

/-- Modelled from the spec: the package manager write-set subcommands (§4.2 rule 5). -/
def pmWrite : List String :=
  ["install", "i", "ci", "uninstall", "remove", "update", "link", "rebuild",
   "add", "build"]

/-- Modelled from the spec: the interpreter command names (§4.2 rule 7). -/
def interpreters : List String := ["python", "python3", "node", "ruby"]

/-- Every command name the rule table recognises (including `tee`). -/
def recognizedNames : List String :=
  alwaysDestructive ++ ["sed", "perl", "git"] ++ pmNames ++ ["make", "cmake"] ++
    interpreters ++ ["curl", "wget", "tee"]

/-- Modelled from the spec: a Verdict — *Allowed* or *Blocked(reason)* (§3). -/
inductive Verdict where
  | allowed
  | blocked : String → Verdict
deriving DecidableEq

/-- Modelled from the spec: per-segment rule matching (§4.2), a first-match
chain over the token run and the redirection flag. -/
def classify (ts : List Tok) (rd : Bool) : Verdict :=
  if rd then .blocked "output redirect"
  else
    match wordTokens ts with
    | [] => .allowed
    | cmd :: args =>
      if alwaysDestructive.contains cmd then
        .blocked (cmd ++ " is blocked (destructive file command)")
      else if cmd = "sed" ∨ cmd = "perl" then
        if args.any (fun a => a == "-i" || a.startsWith "--in-place") then
          .blocked (cmd ++ " -i performs an in-place edit")
        else .allowed
      else if cmd = "git" then
        match args with
        | [] => .allowed
        | sub :: rest =>
          if gitWrite.contains sub then .blocked ("git " ++ sub)
          else if sub = "branch" then
            if rest.any (fun a => a == "-d" || a == "-D") then
              .blocked "git branch -d deletes a branch"
            else .allowed
          else .allowed
      else if pmNames.contains cmd then
        match args with
        | [] => .allowed
        | sub :: _ =>
          if pmWrite.contains sub then
            .blocked (cmd ++ " " ++ sub ++ " modifies packages")
          else .allowed
      else if cmd = "make" ∨ cmd = "cmake" then
        if args.any (fun a => a == "-n" || a == "--dry-run") then .allowed
        else .blocked (cmd ++ " runs a build")
      else if interpreters.contains cmd then
        if args.any (fun a => a == "-c" || a == "-e") then
          .blocked (cmd ++ " runs inline code")
        else .allowed
      else if cmd = "curl" then
        if args.any (fun a => a == "-o" || a.startsWith "--output") then
          .blocked "curl -o writes a downloaded file"
        else .allowed
      else if cmd = "wget" then .blocked "wget writes a downloaded file"
      else .allowed

/-- Per-segment classification: a function of the segment's own tokens and
redirection flag only (§3 invariants). -/
def classifySeg (s : Segment) : Verdict :=
  classify s.tokens s.redir

/-- The reason of the first Blocked segment, scanning left to right (§4.3). -/
def firstBlocked : List Segment → Option String
  | [] => none
  | s :: ss =>
    match classifySeg s with
    | .blocked r => some r
    | .allowed => firstBlocked ss

/-- The reason reported for the pipeline-wide `tee` pattern (§4.3). -/
def teeReason : String := "tee writes a file"

/-- Modelled from the spec: verdict aggregation (§4.3): segment the input;
if the pipeline-wide `tee` flag is set, short-circuit to *Blocked("tee")*;
otherwise return the reason of the first Blocked segment, or `null`. -/
def checkCommandSafety (raw : String) : Option String :=
  if (segments raw).any (fun s => cmdHead s == some "tee") then some teeReason
  else firstBlocked (segments raw)

/-- Does `needle` occur at the head of `hay`? -/
def startsList : List Char → List Char → Bool
  | [], _ => true
  | _ :: _, [] => false
  | a :: as, b :: bs => a == b && startsList as bs

/-- Does `needle` occur as a contiguous substring of `hay`? -/
def hasSub (needle : List Char) : List Char → Bool
  | [] => startsList needle []
  | c :: t => startsList needle (c :: t) || hasSub needle t

/-- Does the diagnostic string `hay` mention `needle`? -/
def mentions (hay needle : String) : Bool :=
  hasSub needle.data hay.data

/-- Is the line empty or a comment after trimming leading whitespace (§4.1)? -/
def blankOrComment (l : List Char) : Bool :=
  match l.dropWhile isWsC with
  | [] => true
  | c :: _ => c == '#'

/-! ## Helper lemmas -/

theorem firstBlocked_eq_none {l : List Segment} :
    firstBlocked l = none ↔ ∀ s ∈ l, classifySeg s = .allowed := by
  induction l with
  | nil => simp [firstBlocked]
  | cons s ss ih =>
    cases h : classifySeg s with
    | allowed => simp [firstBlocked, h, ih]
    | blocked r =>
      simp only [firstBlocked, h]
      constructor
      · intro hc
        exact absurd hc (by simp)
      · intro hall
        have hs := hall s (List.mem_cons_self s ss)
        rw [h] at hs
        cases hs

theorem check_ne_none_of_blocked {raw : String} {s : Segment}
    (hs : s ∈ segments raw) (hb : classifySeg s ≠ .allowed) :
    checkCommandSafety raw ≠ none := by
  unfold checkCommandSafety
  by_cases h : (segments raw).any (fun s => cmdHead s == some "tee") = true
  · simp [h]
  · simp only [h, if_false, Bool.false_eq_true]
    rw [Ne, firstBlocked_eq_none]
    intro hall
    exact hb (hall s hs)

theorem check_eq_reason {raw : String} {seg : Segment} {rest : List Segment} {r : String}
    (hsegs : segments raw = seg :: rest)
    (htee : ∀ s ∈ segments raw, cmdHead s ≠ some "tee")
    (hb : classifySeg seg = .blocked r) :
    checkCommandSafety raw = some r := by
  have hany : (segments raw).any (fun s => cmdHead s == some "tee") = false := by
    apply List.any_eq_false.mpr
    intro s hs
    simpa [beq_iff_eq] using htee s hs
  unfold checkCommandSafety
  rw [hany]
  simp only [Bool.false_eq_true, if_false]
  rw [hsegs]
  simp [firstBlocked, hb]

theorem startsList_self_append (n r : List Char) : startsList n (n ++ r) = true := by
  induction n with
  | nil => rfl
  | cons a t ih => simp [startsList, ih]

theorem hasSub_of_startsList (n h : List Char) (hp : startsList n h = true) :
    hasSub n h = true := by
  cases h with
  | nil => simpa [hasSub] using hp
  | cons c t => simp [hasSub, hp]

theorem mentions_append (cmd sfx : String) : mentions (cmd ++ sfx) cmd = true := by
  unfold mentions
  rw [String.data_append]
  exact hasSub_of_startsList _ _ (startsList_self_append _ _)

/-! ## C1 — verdict aggregation is a logical OR over segment verdicts -/

/-- C1: for every input, the `checkCommandSafety` verdict is non-null iff the
pipeline-wide `tee` flag fires or at least one segment classifies as Blocked
(the redirection flag being part of per-segment classification); each
segment's classification depends only on its own tokens and redirection
flag; hence `ls && rm file.txt` and the multi-line `ls\nrm file` are
blocked because one part is. -/
theorem aggregation_is_or :
    (∀ raw : String, checkCommandSafety raw ≠ none ↔
      ((∃ s ∈ segments raw, cmdHead s = some "tee") ∨
        ∃ s ∈ segments raw, classifySeg s ≠ .allowed))
    ∧ (∀ s₁ s₂ : Segment, s₁.tokens = s₂.tokens → s₁.redir = s₂.redir →
        classifySeg s₁ = classifySeg s₂)
    ∧ checkCommandSafety "ls && rm file.txt" ≠ none
    ∧ checkCommandSafety "ls\nrm file" ≠ none := by
  refine ⟨?_, ?_, by decide, by decide⟩
  · intro raw
    by_cases h : (segments raw).any (fun s => cmdHead s == some "tee") = true
    · obtain ⟨s, hs, hbe⟩ := List.any_eq_true.mp h
      have hst : cmdHead s = some "tee" := by simpa [beq_iff_eq] using hbe
      unfold checkCommandSafety
      rw [h]
      simp only [if_true]
      constructor
      · intro _
        exact Or.inl ⟨s, hs, hst⟩
      · intro _
        simp
    · have h2 : (segments raw).any (fun s => cmdHead s == some "tee") = false := by
        simpa using h
      unfold checkCommandSafety
      rw [h2]
      simp only [Bool.false_eq_true, if_false]
      rw [Ne, firstBlocked_eq_none]
      constructor
      · intro hna
        push_neg at hna
        exact Or.inr hna
      · rintro (⟨s, hs, hst⟩ | ⟨s, hs, hne⟩)
        · have hfalse := List.any_eq_false.mp h2 s hs
          simp [hst] at hfalse
        · intro hall
          exact hne (hall s hs)
  · intro s₁ s₂ h1 h2
    unfold classifySeg
    rw [h1, h2]

/-- Witness for C1: the segment-locality conjunct applied at a concrete segment. -/
theorem aggregation_is_or_witness :
    classifySeg ⟨[Tok.word "rm"], false⟩ = classifySeg ⟨[Tok.word "rm"], false⟩ :=
  aggregation_is_or.2.1 ⟨[Tok.word "rm"], false⟩ ⟨[Tok.word "rm"], false⟩ rfl rfl

/-! ## C8 — pipeline-wide tee short-circuit -/

/-- C8: whenever `tee` occurs as a command name of some segment (in
particular anywhere in a `|`-joined pipeline), `checkCommandSafety`
short-circuits to the `tee` reason before per-segment classification,
hence is non-null. -/
theorem tee_short_circuit :
    (∀ raw : String, (∃ s ∈ segments raw, cmdHead s = some "tee") →
      checkCommandSafety raw = some teeReason)
    ∧ checkCommandSafety "echo hello | tee output.txt" = some teeReason
    ∧ checkCommandSafety "ls | tee -a log.txt" ≠ none := by
  refine ⟨?_, by decide, by decide⟩
  rintro raw ⟨s, hs, hst⟩
  have h : (segments raw).any (fun s => cmdHead s == some "tee") = true :=
    List.any_eq_true.mpr ⟨s, hs, by simp [hst]⟩
  unfold checkCommandSafety
  rw [h]
  simp

/-- Witness for C8: the tee short-circuit at a concrete pipeline. -/
theorem tee_short_circuit_witness :
    checkCommandSafety "sort data.csv | tee copy.txt" = some teeReason :=
  tee_short_circuit.1 "sort data.csv | tee copy.txt" (by decide)

/-! ## Quote handling lemmas -/

theorem splitLines_no_nl (l : List Char) (h : '\n' ∉ l) : splitLines l = [l] := by
  induction l with
  | nil => rfl
  | cons c t ih =>
    have hc : ¬(c = '\n') := fun e => h (by rw [e]; exact List.mem_cons_self _ _)
    have ht : '\n' ∉ t := fun m => h (List.mem_cons_of_mem _ m)
    simp [splitLines, hc, ih ht]

theorem sq_consume (l rest acc : List Char) (h : squote ∉ l) :
    tokenizeAux .single (l ++ rest) acc true =
      tokenizeAux .single rest (l.reverse ++ acc) true := by
  induction l generalizing acc with
  | nil => simp
  | cons c t ih =>
    have hc : ¬(c = squote) := fun e => h (by rw [e]; exact List.mem_cons_self _ _)
    have ht : squote ∉ t := fun m => h (List.mem_cons_of_mem _ m)
    rw [show ((c :: t) ++ rest) = c :: (t ++ rest) from rfl]
    rw [show tokenizeAux .single (c :: (t ++ rest)) acc true =
          if c = squote then tokenizeAux .normal (t ++ rest) acc true
          else tokenizeAux .single (t ++ rest) (c :: acc) true from rfl]
    rw [if_neg hc, ih (c :: acc) ht]
    simp

theorem sq_run (l acc : List Char) (h : squote ∉ l) :
    tokenizeAux .single l acc true = [Tok.word ⟨acc.reverse ++ l⟩] := by
  induction l generalizing acc with
  | nil => simp [tokenizeAux]
  | cons c t ih =>
    have hc : ¬(c = squote) := fun e => h (by rw [e]; exact List.mem_cons_self _ _)
    have ht : squote ∉ t := fun m => h (List.mem_cons_of_mem _ m)
    rw [show tokenizeAux .single (c :: t) acc true =
          if c = squote then tokenizeAux .normal t acc true
          else tokenizeAux .single t (c :: acc) true from rfl]
    rw [if_neg hc, ih (c :: acc) ht]
    simp

theorem dq_consume (l rest acc : List Char) (h : '"' ∉ l) :
    tokenizeAux .double (l ++ rest) acc true =
      tokenizeAux .double rest (l.reverse ++ acc) true := by
  induction l generalizing acc with
  | nil => simp
  | cons c t ih =>
    have hc : ¬(c = '"') := fun e => h (by rw [e]; exact List.mem_cons_self _ _)
    have ht : '"' ∉ t := fun m => h (List.mem_cons_of_mem _ m)
    rw [show ((c :: t) ++ rest) = c :: (t ++ rest) from rfl]
    rw [show tokenizeAux .double (c :: (t ++ rest)) acc true =
          if c = '"' then tokenizeAux .normal (t ++ rest) acc true
          else tokenizeAux .double (t ++ rest) (c :: acc) true from rfl]
    rw [if_neg hc, ih (c :: acc) ht]
    simp

theorem sq_close (acc : List Char) :
    tokenizeAux .single (squote :: []) acc true = [Tok.word ⟨acc.reverse⟩] := rfl

theorem dq_close (acc : List Char) :
    tokenizeAux .double ('"' :: []) acc true = [Tok.word ⟨acc.reverse⟩] := rfl

theorem lineSegments_run (c : Char) (r : List Char) (hws : isWsC c = false)
    (hc : c ≠ '#') :
    lineSegments (c :: r) =
      ((splitRuns (tokenizeAux .normal (c :: r) [] false)).filter
        (fun t => !t.isEmpty)).map
        (fun t => { tokens := t, redir := t.any isRedirTok }) := by
  simp [lineSegments, List.dropWhile_cons, hws, hc]

theorem segments_echo_quoted (s : String) (h1 : squote ∉ s.data)
    (h2 : '\n' ∉ s.data) :
    segments ("echo \x27" ++ s ++ "\x27") =
      [⟨[Tok.word "echo", Tok.word s], false⟩] := by
  have hd : ("echo \x27" ++ s ++ "\x27").data
      = 'e' :: 'c' :: 'h' :: 'o' :: ' ' :: squote :: (s.data ++ [squote]) := by
    rw [String.data_append, String.data_append]
    rfl
  have hnl : '\n' ∉ 'e' :: 'c' :: 'h' :: 'o' :: ' ' :: squote :: (s.data ++ [squote]) := by
    simp [squote]
    exact h2
  have htok : tokenizeAux .normal
      ('e' :: 'c' :: 'h' :: 'o' :: ' ' :: squote :: (s.data ++ [squote])) [] false
      = [Tok.word "echo", Tok.word s] := by
    show Tok.word "echo" :: tokenizeAux .single (s.data ++ [squote]) [] true
      = [Tok.word "echo", Tok.word s]
    rw [sq_consume s.data [squote] [] h1, sq_close]
    simp only [List.append_nil, List.reverse_reverse]
  unfold segments
  rw [hd, splitLines_no_nl _ hnl]
  simp only [List.flatMap_cons, List.flatMap_nil, List.append_nil]
  rw [lineSegments_run 'e' _ (by decide) (by decide), htok]
  rfl

theorem segments_echo_dquoted (s : String) (h1 : '"' ∉ s.data)
    (h2 : '\n' ∉ s.data) :
    segments ("echo \"" ++ s ++ "\"") =
      [⟨[Tok.word "echo", Tok.word s], false⟩] := by
  have hd : ("echo \"" ++ s ++ "\"").data
      = 'e' :: 'c' :: 'h' :: 'o' :: ' ' :: '"' :: (s.data ++ ['"']) := by
    rw [String.data_append, String.data_append]
    rfl
  have hnl : '\n' ∉ 'e' :: 'c' :: 'h' :: 'o' :: ' ' :: '"' :: (s.data ++ ['"']) := by
    simp
    exact h2
  have htok : tokenizeAux .normal
      ('e' :: 'c' :: 'h' :: 'o' :: ' ' :: '"' :: (s.data ++ ['"'])) [] false
      = [Tok.word "echo", Tok.word s] := by
    show Tok.word "echo" :: tokenizeAux .double (s.data ++ ['"']) [] true
      = [Tok.word "echo", Tok.word s]
    rw [dq_consume s.data ['"'] [] h1, dq_close]
    simp only [List.append_nil, List.reverse_reverse]
  unfold segments
  rw [hd, splitLines_no_nl _ hnl]
  simp only [List.flatMap_cons, List.flatMap_nil, List.append_nil]
  rw [lineSegments_run 'e' _ (by decide) (by decide), htok]
  rfl

theorem segments_echo_unterminated (s : String) (h1 : squote ∉ s.data)
    (h2 : '\n' ∉ s.data) :
    segments ("echo \x27" ++ s) = [⟨[Tok.word "echo", Tok.word s], false⟩] := by
  have hd : ("echo \x27" ++ s).data
      = 'e' :: 'c' :: 'h' :: 'o' :: ' ' :: squote :: s.data := by
    rw [String.data_append]
    rfl
  have hnl : '\n' ∉ 'e' :: 'c' :: 'h' :: 'o' :: ' ' :: squote :: s.data := by
    simp [squote]
    exact h2
  have htok : tokenizeAux .normal
      ('e' :: 'c' :: 'h' :: 'o' :: ' ' :: squote :: s.data) [] false
      = [Tok.word "echo", Tok.word s] := by
    show Tok.word "echo" :: tokenizeAux .single s.data [] true
      = [Tok.word "echo", Tok.word s]
    rw [sq_run s.data [] h1]
    simp
  unfold segments
  rw [hd, splitLines_no_nl _ hnl]
  simp only [List.flatMap_cons, List.flatMap_nil, List.append_nil]
  rw [lineSegments_run 'e' _ (by decide) (by decide), htok]
  rfl

theorem check_echo_word (raw s : String)
    (hsegs : segments raw = [⟨[Tok.word "echo", Tok.word s], false⟩]) :
    checkCommandSafety raw = none := by
  unfold checkCommandSafety
  rw [hsegs]
  rfl

/-! ## C4 — quoted spans are inert -/

/-- C4: characters inside a single- or double-quoted span are never treated
as separators or redirection operators: for any quoted content (containing
arbitrary separators, redirection characters or whitespace), the whole span
is one word token, the segment does not split, the redirection flag stays
unset, and the command is not blocked. -/
theorem quoted_spans_inert :
    (∀ s : String, squote ∉ s.data → '\n' ∉ s.data →
      segments ("echo \x27" ++ s ++ "\x27") =
        [⟨[Tok.word "echo", Tok.word s], false⟩] ∧
      checkCommandSafety ("echo \x27" ++ s ++ "\x27") = none)
    ∧ (∀ s : String, '"' ∉ s.data → '\n' ∉ s.data →
      segments ("echo \"" ++ s ++ "\"") =
        [⟨[Tok.word "echo", Tok.word s], false⟩] ∧
      checkCommandSafety ("echo \"" ++ s ++ "\"") = none) := by
  constructor
  · intro s h1 h2
    have hsegs := segments_echo_quoted s h1 h2
    exact ⟨hsegs, check_echo_word _ _ hsegs⟩
  · intro s h1 h2
    have hsegs := segments_echo_dquoted s h1 h2
    exact ⟨hsegs, check_echo_word _ _ hsegs⟩

/-- Witness for C4: the quoted span `a > b && c | d; e` is one token and the
command is allowed. -/
theorem quoted_spans_inert_witness :
    segments ("echo \x27" ++ "a > b && c | d; e" ++ "\x27") =
      [⟨[Tok.word "echo", Tok.word "a > b && c | d; e"], false⟩] ∧
    checkCommandSafety ("echo \x27" ++ "a > b && c | d; e" ++ "\x27") = none :=
  quoted_spans_inert.1 "a > b && c | d; e" (by decide) (by decide)

/-! ## C5 — totality and the unterminated-quote policy -/

/-- C5: `checkCommandSafety` is total — every input yields `null` or a
string — and after an unterminated quote the remainder of the line is part
of the open quoted span, so no separator or redirection is recognised past
it: destructive-looking text after the quote stays one harmless token. -/
theorem total_and_unterminated_quote :
    (∀ raw : String,
      checkCommandSafety raw = none ∨ ∃ r, checkCommandSafety raw = some r)
    ∧ (∀ s : String, squote ∉ s.data → '\n' ∉ s.data →
      segments ("echo \x27" ++ s) = [⟨[Tok.word "echo", Tok.word s], false⟩] ∧
      checkCommandSafety ("echo \x27" ++ s) = none) := by
  constructor
  · intro raw
    cases h : checkCommandSafety raw with
    | none => exact Or.inl rfl
    | some r => exact Or.inr ⟨r, rfl⟩
  · intro s h1 h2
    have hsegs := segments_echo_unterminated s h1 h2
    exact ⟨hsegs, check_echo_word _ _ hsegs⟩

/-- Witness for C5: an unterminated quote swallows `rm -rf / > x | tee y`,
which is then allowed as plain quoted text. -/
theorem total_and_unterminated_quote_witness :
    segments ("echo \x27" ++ "rm -rf / > x | tee y") =
      [⟨[Tok.word "echo", Tok.word "rm -rf / > x | tee y"], false⟩] ∧
    checkCommandSafety ("echo \x27" ++ "rm -rf / > x | tee y") = none :=
  total_and_unterminated_quote.2 "rm -rf / > x | tee y" (by decide) (by decide)

/-! ## C2 — always-destructive first token -/

theorem classify_destructive {ts : List Tok} {cmd : String} {args : List String}
    (hwt : wordTokens ts = cmd :: args) (hmem : cmd ∈ alwaysDestructive) :
    classify ts false = .blocked (cmd ++ " is blocked (destructive file command)") := by
  simp [classify, hwt, hmem]

theorem exists_args_of_cmdHead {seg : Segment} {cmd : String}
    (hhead : cmdHead seg = some cmd) :
    ∃ args, wordTokens seg.tokens = cmd :: args := by
  unfold cmdHead at hhead
  cases hl : wordTokens seg.tokens with
  | nil =>
    rw [hl] at hhead
    cases hhead
  | cons a t =>
    rw [hl] at hhead
    simp at hhead
    exact ⟨t, by rw [hhead]⟩

/-- C2 (amended): for every input whose first segment's command name is an
always-destructive command, the verdict is non-null; and provided the first
segment carries no unquoted redirection and the `tee` short-circuit does not
fire, the diagnostic contains that command's name, independent of the flags
that follow. -/
theorem destructive_first_token :
    (∀ (raw : String) (seg : Segment) (rest : List Segment) (cmd : String),
      segments raw = seg :: rest → cmdHead seg = some cmd →
      cmd ∈ alwaysDestructive → checkCommandSafety raw ≠ none)
    ∧ (∀ (raw : String) (seg : Segment) (rest : List Segment) (cmd : String),
      segments raw = seg :: rest → cmdHead seg = some cmd →
      cmd ∈ alwaysDestructive → seg.redir = false →
      (∀ s ∈ segments raw, cmdHead s ≠ some "tee") →
      ∃ r, checkCommandSafety raw = some r ∧ mentions r cmd = true) := by
  constructor
  · intro raw seg rest cmd hsegs hhead hmem
    obtain ⟨args, hwt⟩ := exists_args_of_cmdHead hhead
    have hsm : seg ∈ segments raw := by
      rw [hsegs]
      exact List.mem_cons_self _ _
    refine check_ne_none_of_blocked hsm ?_
    unfold classifySeg
    cases hr : seg.redir with
    | true => simp [classify]
    | false =>
      rw [classify_destructive hwt hmem]
      simp
  · intro raw seg rest cmd hsegs hhead hmem hredir htee
    obtain ⟨args, hwt⟩ := exists_args_of_cmdHead hhead
    have hb : classifySeg seg = .blocked (cmd ++ " is blocked (destructive file command)") := by
      unfold classifySeg
      rw [hredir]
      exact classify_destructive hwt hmem
    exact ⟨_, check_eq_reason hsegs htee hb, mentions_append cmd _⟩

/-- Counterexample to C2 as stated: `rm x > y` has first segment token `rm`,
yet the diagnostic is the redirect reason, which does not contain "rm"; and
`rm f | tee g` also has first segment token `rm`, yet the tee short-circuit
reports the tee reason, which does not contain "rm" either. -/
theorem destructive_first_token_cex :
    (segments "rm x > y"
      = [⟨[Tok.word "rm", Tok.word "x", Tok.redir ">", Tok.word "y"], true⟩]
    ∧ checkCommandSafety "rm x > y" = some "output redirect"
    ∧ mentions "output redirect" "rm" = false)
    ∧ (segments "rm f | tee g"
      = [⟨[Tok.word "rm", Tok.word "f"], false⟩,
         ⟨[Tok.word "tee", Tok.word "g"], false⟩]
    ∧ checkCommandSafety "rm f | tee g" = some teeReason
    ∧ mentions teeReason "rm" = false) := by decide

/-- Witness for C2: `rm -rf /` is blocked with a reason naming `rm`. -/
theorem destructive_first_token_witness :
    ∃ r, checkCommandSafety "rm -rf /" = some r ∧ mentions r "rm" = true :=
  destructive_first_token.2 "rm -rf /"
    ⟨[Tok.word "rm", Tok.word "-rf", Tok.word "/"], false⟩ [] "rm"
    (by decide) (by decide) (by decide) rfl (by decide)

/-! ## C3 — unquoted redirection blocks -/

/-- C3 (amended): any input with an unquoted `>` or `>>` in some segment is
non-null; when the redirecting segment is the first one and the `tee`
short-circuit does not fire, the diagnostic mentions "redirect" (an earlier
blocked segment or the tee pattern otherwise reports its own reason). -/
theorem redirect_blocks :
    (∀ raw : String, (∃ s ∈ segments raw, s.redir = true) →
      checkCommandSafety raw ≠ none)
    ∧ (∀ (raw : String) (seg : Segment) (rest : List Segment),
      segments raw = seg :: rest → seg.redir = true →
      (∀ s ∈ segments raw, cmdHead s ≠ some "tee") →
      checkCommandSafety raw = some "output redirect" ∧
        mentions "output redirect" "redirect" = true) := by
  constructor
  · rintro raw ⟨s, hs, hr⟩
    refine check_ne_none_of_blocked hs ?_
    simp [classifySeg, classify, hr]
  · intro raw seg rest hsegs hredir htee
    have hb : classifySeg seg = .blocked "output redirect" := by
      simp [classifySeg, classify, hredir]
    exact ⟨check_eq_reason hsegs htee hb, by decide⟩

/-- Counterexample to C3 as stated: `rm f; echo x > y` contains an unquoted
redirect, but the diagnostic is the earlier segment's `rm` reason, which
does not mention "redirect". -/
theorem redirect_blocks_cex :
    (∃ s ∈ segments "rm f; echo x > y", s.redir = true)
    ∧ checkCommandSafety "rm f; echo x > y"
        = some "rm is blocked (destructive file command)"
    ∧ mentions "rm is blocked (destructive file command)" "redirect" = false := by
  decide

/-- Witness for C3: `echo x > y` yields the redirect diagnostic. -/
theorem redirect_blocks_witness :
    checkCommandSafety "echo x > y" = some "output redirect" ∧
      mentions "output redirect" "redirect" = true :=
  redirect_blocks.2 "echo x > y"
    ⟨[Tok.word "echo", Tok.word "x", Tok.redir ">", Tok.word "y"], true⟩ []
    (by decide) rfl (by decide)

/-! ## C9 — blank and comment-only input -/

theorem lineSegments_eq_nil {l : List Char} (h : blankOrComment l = true) :
    lineSegments l = [] := by
  unfold blankOrComment at h
  unfold lineSegments
  cases hd : l.dropWhile isWsC with
  | nil => rfl
  | cons c t =>
    rw [hd] at h
    simp at h
    simp [h]

theorem flatMap_nil_of_blank (ls : List (List Char))
    (h : ∀ l ∈ ls, blankOrComment l = true) :
    ls.flatMap lineSegments = [] := by
  induction ls with
  | nil => rfl
  | cons a t ih =>
    rw [List.flatMap_cons, lineSegments_eq_nil (h a (List.mem_cons_self _ _)),
      ih (fun l hl => h l (List.mem_cons_of_mem _ hl))]
    rfl

/-- C9: every input whose lines are all empty, whitespace-only, or comments
(`#...`) after trimming produces zero evaluable segments and is allowed. -/
theorem blank_and_comment_allowed :
    (∀ raw : String, (∀ l ∈ splitLines raw.data, blankOrComment l = true) →
      checkCommandSafety raw = none)
    ∧ checkCommandSafety "" = none
    ∧ checkCommandSafety "   " = none
    ∧ checkCommandSafety "# this is a comment" = none := by
  refine ⟨?_, by decide, by decide, by decide⟩
  intro raw h
  unfold checkCommandSafety
  rw [show segments raw = [] from flatMap_nil_of_blank _ h]
  rfl

/-- Witness for C9: a mixed blank/comment multi-line input is allowed. -/
theorem blank_and_comment_allowed_witness :
    checkCommandSafety "  \n# note\n\t " = none :=
  blank_and_comment_allowed.1 "  \n# note\n\t " (by decide)

/-! ## C6 — git subcommand policy -/

theorem classify_git_write {ts : List Tok} {sub : String} {rest : List String}
    (hwt : wordTokens ts = "git" :: sub :: rest) (hsub : sub ∈ gitWrite) :
    classify ts false ≠ .allowed := by
  simp [classify, hwt, hsub, alwaysDestructive]

theorem classify_git_branch_delete {ts : List Tok} {rest : List String}
    (hwt : wordTokens ts = "git" :: "branch" :: rest)
    (hmem : "-d" ∈ rest ∨ "-D" ∈ rest) :
    classify ts false ≠ .allowed := by
  have hex : ∃ x ∈ rest, x = "-d" ∨ x = "-D" := by
    rcases hmem with h | h
    · exact ⟨_, h, Or.inl rfl⟩
    · exact ⟨_, h, Or.inr rfl⟩
  simp [classify, hwt, hex, alwaysDestructive, gitWrite]

theorem classifySeg_ne_allowed {seg : Segment}
    (h : classify seg.tokens false ≠ .allowed) : classifySeg seg ≠ .allowed := by
  unfold classifySeg
  cases hr : seg.redir with
  | true => simp [classify]
  | false => exact h

/-- C6 (amended): a segment `git <sub>` with `<sub>` in the write-set is
blocked, as is `git branch` followed by `-d`/`-D`; `git branch` without a
delete flag and the read subcommands (`log`, `diff`, `show`, `status`,
`remote`, `blame`, `shortlog`) classify as Allowed provided the segment has
no unquoted redirection (a redirect blocks it regardless of subcommand). -/
theorem git_subcommand_policy :
    (∀ (raw : String) (seg : Segment) (sub : String) (rest : List String),
      seg ∈ segments raw → wordTokens seg.tokens = "git" :: sub :: rest →
      sub ∈ gitWrite → checkCommandSafety raw ≠ none)
    ∧ (∀ (raw : String) (seg : Segment) (rest : List String),
      seg ∈ segments raw → wordTokens seg.tokens = "git" :: "branch" :: rest →
      ("-d" ∈ rest ∨ "-D" ∈ rest) → checkCommandSafety raw ≠ none)
    ∧ (∀ (ts : List Tok) (rest : List String),
      wordTokens ts = "git" :: "branch" :: rest →
      "-d" ∉ rest → "-D" ∉ rest → classify ts false = .allowed)
    ∧ (∀ (ts : List Tok) (sub : String) (rest : List String),
      wordTokens ts = "git" :: sub :: rest →
      sub ∈ ["log", "diff", "show", "status", "remote", "blame", "shortlog"] →
      classify ts false = .allowed)
    ∧ checkCommandSafety "git commit -m \"msg\"" ≠ none
    ∧ checkCommandSafety "git push origin main" ≠ none
    ∧ checkCommandSafety "git branch -d feature" ≠ none
    ∧ checkCommandSafety "git branch" = none
    ∧ checkCommandSafety "git log --oneline" = none
    ∧ checkCommandSafety "git status" = none := by
  refine ⟨?_, ?_, ?_, ?_, by decide, by decide, by decide, by decide, by decide,
    by decide⟩
  · intro raw seg sub rest hs hwt hsub
    exact check_ne_none_of_blocked hs
      (classifySeg_ne_allowed (classify_git_write hwt hsub))
  · intro raw seg rest hs hwt hmem
    exact check_ne_none_of_blocked hs
      (classifySeg_ne_allowed (classify_git_branch_delete hwt hmem))
  · intro ts rest hwt h1 h2
    have hne : ¬ ∃ x ∈ rest, x = "-d" ∨ x = "-D" := by
      rintro ⟨x, hx, rfl | rfl⟩
      · exact h1 hx
      · exact h2 hx
    simp [classify, hwt, hne, alwaysDestructive, gitWrite]
  · intro ts sub rest hwt hsub
    simp only [List.mem_cons, List.not_mem_nil, or_false] at hsub
    rcases hsub with rfl | rfl | rfl | rfl | rfl | rfl | rfl <;>
      simp [classify, hwt, alwaysDestructive, gitWrite]

/-- Counterexample to C6 as stated: `git branch > notes.txt` has first token
`git`, subcommand `branch`, no `-d`/`-D`, yet the verdict is non-null
because the unquoted redirect fires first. -/
theorem git_subcommand_policy_cex :
    segments "git branch > notes.txt"
      = [⟨[Tok.word "git", Tok.word "branch", Tok.redir ">",
            Tok.word "notes.txt"], true⟩]
    ∧ checkCommandSafety "git branch > notes.txt" = some "output redirect" := by
  decide

/-- Witness for C6: `git push origin main` is blocked via the write-set rule. -/
theorem git_subcommand_policy_witness :
    checkCommandSafety "git push origin main" ≠ none :=
  git_subcommand_policy.1 "git push origin main"
    ⟨[Tok.word "git", Tok.word "push", Tok.word "origin", Tok.word "main"], false⟩
    "push" ["origin", "main"] (by decide) (by decide) (by decide)

/-! ## C7 — make/cmake dry-run policy -/

theorem classify_build_no_dry {ts : List Tok} {cmd : String} {args : List String}
    (hwt : wordTokens ts = cmd :: args) (hcmd : cmd = "make" ∨ cmd = "cmake")
    (h1 : "-n" ∉ args) (h2 : "--dry-run" ∉ args) :
    classify ts false ≠ .allowed := by
  have hne : ¬ ∃ x ∈ args, x = "-n" ∨ x = "--dry-run" := by
    rintro ⟨x, hx, rfl | rfl⟩
    · exact h1 hx
    · exact h2 hx
  rcases hcmd with rfl | rfl <;>
    simp [classify, hwt, hne, alwaysDestructive, pmNames]

/-- C7 (amended): a segment headed by `make` or `cmake` is blocked when no
dry-run flag (`-n`, `--dry-run`) is among its tokens; with a dry-run flag
it classifies as Allowed provided the segment has no unquoted redirection
(a redirect blocks it even under `-n`). -/
theorem make_dry_run_policy :
    (∀ (raw : String) (seg : Segment) (cmd : String) (args : List String),
      seg ∈ segments raw → wordTokens seg.tokens = cmd :: args →
      (cmd = "make" ∨ cmd = "cmake") → "-n" ∉ args → "--dry-run" ∉ args →
      checkCommandSafety raw ≠ none)
    ∧ (∀ (ts : List Tok) (cmd : String) (args : List String),
      wordTokens ts = cmd :: args → (cmd = "make" ∨ cmd = "cmake") →
      ("-n" ∈ args ∨ "--dry-run" ∈ args) → classify ts false = .allowed)
    ∧ checkCommandSafety "make" ≠ none
    ∧ checkCommandSafety "cmake ." ≠ none
    ∧ checkCommandSafety "make -n" = none
    ∧ checkCommandSafety "make --dry-run" = none := by
  refine ⟨?_, ?_, by decide, by decide, by decide, by decide⟩
  · intro raw seg cmd args hs hwt hcmd h1 h2
    exact check_ne_none_of_blocked hs
      (classifySeg_ne_allowed (classify_build_no_dry hwt hcmd h1 h2))
  · intro ts cmd args hwt hcmd hmem
    have hex : ∃ x ∈ args, x = "-n" ∨ x = "--dry-run" := by
      rcases hmem with h | h
      · exact ⟨_, h, Or.inl rfl⟩
      · exact ⟨_, h, Or.inr rfl⟩
    rcases hcmd with rfl | rfl <;>
      simp [classify, hwt, hex, alwaysDestructive, pmNames]

/-- Counterexample to C7 as stated: `make -n > log.txt` carries a dry-run
flag, yet the verdict is non-null because the unquoted redirect fires. -/
theorem make_dry_run_policy_cex :
    segments "make -n > log.txt"
      = [⟨[Tok.word "make", Tok.word "-n", Tok.redir ">", Tok.word "log.txt"],
          true⟩]
    ∧ checkCommandSafety "make -n > log.txt" = some "output redirect" := by
  decide

/-- Witness for C7: `make -n` (without redirection) classifies as Allowed. -/
theorem make_dry_run_policy_witness :
    classify [Tok.word "make", Tok.word "-n"] false = .allowed :=
  make_dry_run_policy.2.1 [Tok.word "make", Tok.word "-n"] "make" ["-n"]
    (by decide) (Or.inl rfl) (Or.inl (by decide))

/-! ## C10 — permissive default for unrecognized commands -/

theorem classify_unrecognized {ts : List Tok} {cmd : String} {args : List String}
    (hwt : wordTokens ts = cmd :: args)
    (hnm : cmd ∉ recognizedNames) :
    classify ts false = .allowed := by
  have hd : cmd ∉ alwaysDestructive := fun hm => hnm (by simp [recognizedNames, hm])
  have hpm : cmd ∉ pmNames := fun hm => hnm (by simp [recognizedNames, hm])
  have hint : cmd ∉ interpreters := fun hm => hnm (by simp [recognizedNames, hm])
  have hsed : ¬(cmd = "sed") := fun e => hnm (by rw [e]; decide)
  have hperl : ¬(cmd = "perl") := fun e => hnm (by rw [e]; decide)
  have hgit : ¬(cmd = "git") := fun e => hnm (by rw [e]; decide)
  have hmake : ¬(cmd = "make") := fun e => hnm (by rw [e]; decide)
  have hcmake : ¬(cmd = "cmake") := fun e => hnm (by rw [e]; decide)
  have hcurl : ¬(cmd = "curl") := fun e => hnm (by rw [e]; decide)
  have hwget : ¬(cmd = "wget") := fun e => hnm (by rw [e]; decide)
  simp [classify, hwt, hd, hpm, hint, hsed, hperl, hgit, hmake, hcmake, hcurl,
    hwget]

/-- C10: when every segment has an unrecognized command name, no unquoted
redirection, and no `tee` head, the verdict is null — a destructive name
appearing as a later argument token (as with `xargs rm`) does not trigger a
block, because rule matching inspects only a segment's leading token. -/
theorem permissive_default :
    (∀ raw : String,
      (∀ s ∈ segments raw, s.redir = false ∧
        ((cmdHead s).all fun c => !(recognizedNames.contains c)) = true) →
      checkCommandSafety raw = none)
    ∧ checkCommandSafety "find . -name \x27*.ts\x27 | xargs grep \x27import\x27" = none
    ∧ checkCommandSafety "echo rm | xargs rm" = none
    ∧ checkCommandSafety "cat file.txt | grep pattern | wc -l" = none := by
  refine ⟨?_, by decide, by decide, by decide⟩
  intro raw h
  unfold checkCommandSafety
  have htee : (segments raw).any (fun s => cmdHead s == some "tee") = false := by
    apply List.any_eq_false.mpr
    intro s hs
    obtain ⟨_, hall⟩ := h s hs
    intro hbe
    have hst : cmdHead s = some "tee" := by simpa [beq_iff_eq] using hbe
    rw [hst] at hall
    simp [Option.all] at hall
    exact hall (by decide)
  rw [htee]
  simp only [Bool.false_eq_true, if_false]
  apply firstBlocked_eq_none.mpr
  intro s hs
  obtain ⟨hr, hall⟩ := h s hs
  unfold classifySeg
  rw [hr]
  cases hw : wordTokens s.tokens with
  | nil => simp [classify, hw]
  | cons cmd args =>
    have hch : cmdHead s = some cmd := by
      unfold cmdHead
      rw [hw]
      rfl
    rw [hch] at hall
    have hc : cmd ∉ recognizedNames := by
      simpa [Option.all] using hall
    exact classify_unrecognized hw hc

/-- Witness for C10: `xargs rm file.txt` is allowed — `rm` is only an
argument, and `xargs` is unrecognized. -/
theorem permissive_default_witness :
    checkCommandSafety "xargs rm file.txt" = none :=
  permissive_default.1 "xargs rm file.txt" (by decide)
